import Mathlib

/-!
Shallow embedding of the decoder core of gust_tools (src/gust_enc.c and
src/Pak_Decrypt.c), together with proofs settling the claims C1..C10.

Buffers are lists of byte values (Nat, intended < 256).  Machine arithmetic
is modelled with explicit masks and moduli: uint32 wrap-around is written
as a remainder mod 4294967296, uint16 as mod 65536, uint8 as mod 256.
Out-of-range list reads are modelled with getD (default 0) and out-of-range
writes with List.set (a no-op past the end); the theorems that depend on
byte values always stay within these ranges or carry explicit bounds.
-/

namespace GustTools

/-- Modelled from the spec: getbe16 of util.h (not under src/) reads a
big-endian 16-bit word from two consecutive bytes. -/
def getbe16 (l : List Nat) (p : Nat) : Nat :=
  (l.getD p 0 % 256) * 256 + l.getD (p + 1) 0 % 256

/-- Modelled from the spec: setbe16 of util.h (not under src/) writes a
16-bit word big-endian into two consecutive bytes. -/
def setbe16 (l : List Nat) (p w : Nat) : List Nat :=
  (l.set p (w / 256 % 256)).set (p + 1) (w % 256)

/-- Modelled from the spec: getbe32 of util.h (not under src/) reads a
big-endian 32-bit word from four consecutive bytes. -/
def getbe32 (l : List Nat) (p : Nat) : Nat :=
  ((l.getD p 0 % 256) * 256 + l.getD (p + 1) 0 % 256) * 65536 +
    (l.getD (p + 2) 0 % 256) * 256 + l.getD (p + 3) 0 % 256

/-- Modelled from the spec: PAK fields are little-endian 32-bit words
(spec section 3); this reads one from four consecutive bytes. -/
def getle32 (l : List Nat) (p : Nat) : Nat :=
  l.getD p 0 % 256 + (l.getD (p + 1) 0 % 256) * 256 +
    (l.getD (p + 2) 0 % 256) * 65536 + (l.getD (p + 3) 0 % 256) * 16777216

/-- The fixed PRNG multiplier SEED_CONSTANT of gust_enc.c. -/
def SEED_CONSTANT : Nat := 0x3b9a73c9

/-- One PRNG step: seed1 becomes seed0 * seed1 + SEED_INCREMENT in uint32
arithmetic (gust_enc.c line 79 and all other seed updates). -/
def lcg (k s : Nat) : Nat := (k * s + 0x2f09) % 4294967296

/-! Bit-swap pass (descramble_chunk, gust_enc.c lines 58-113). -/

/-- Bit b of a byte, exactly as gust_enc.c line 97 computes it:
(chunk[p] AND (1 shl b)) shr b. -/
def bitOf (x b : Nat) : Nat := (x &&& (1 <<< b)) >>> b

/-- Clear bit b of byte x and OR in value v at that position, as gust_enc.c
lines 100-101; the AND mask is the uint8 complement of (1 shl b). -/
def updBit (x b v : Nat) : Nat := (x &&& (255 ^^^ (1 <<< b))) ||| (v <<< b)

/-- Swap the bits at positions P0 = (byte, bit) and P1 within the buffer
(gust_enc.c lines 96-103).  The second write reads the byte updated by the
first one, exactly as the C code does when both point into the same byte. -/
def doSwap (buf : List Nat) (P0 P1 : Nat × Nat) : List Nat :=
  let v0 := bitOf (buf.getD P0.1 0) P0.2
  let v1 := bitOf (buf.getD P1.1 0) P1.2
  let buf1 := buf.set P0.1 (updBit (buf.getD P0.1 0) P0.2 v1)
  buf1.set P1.1 (updBit (buf1.getD P1.1 0) P1.2 v0)

/-- Run a list of bit swaps over the buffer in order. -/
def applyPairs (buf : List Nat) : List ((Nat × Nat) × (Nat × Nat)) → List Nat
  | [] => buf
  | (P0, P1) :: rest => applyPairs (doSwap buf P0 P1) rest

/-- Translate a scrambling-table value into an absolute (byte, bit) position:
byte = (uint8_t)(v shr 3) relative to the slice base, bit = v AND 7
(gust_enc.c lines 92-95; the uint8_t cast is the mod 256). -/
def mkAbs (sb v : Nat) : Nat × Nat := (sb + (v >>> 3) % 256, v &&& 7)

/-- Pair up consecutive scrambling-table entries into swap positions
(gust_enc.c line 91 iterates i in steps of 2). -/
def toPairs (sb : Nat) : List Nat → List ((Nat × Nat) × (Nat × Nat))
  | a :: b :: r => (mkAbs sb a, mkAbs sb b) :: toPairs sb r
  | _ => []

/-- The base table holds (uint16_t)i for i = 0..T-1 (gust_enc.c lines 74-75);
the cast is the mod 65536. -/
def baseTable (T : Nat) : List Nat := (List.range T).map (· % 65536)

/-- Fisher-Yates style selection loop of gust_enc.c lines 78-85: draw the
PRNG, pick index x into the remaining base table (the C modulus is
table_size - i, carried here as rem), emit that entry and delete it (the
memmove is exactly an eraseIdx on the logical remaining prefix).  Returns
the scrambling table and the final PRNG state. -/
def pickLoop (k : Nat) : Nat → Nat → Nat → List Nat → List Nat × Nat
  | 0, _, s, _ => ([], s)
  | fuel + 1, rem, s, base =>
    let s1 := lcg k s
    let x := ((s1 >>> 16) &&& 0x7fff) % rem
    let r := pickLoop k fuel (rem - 1) s1 (base.eraseIdx x)
    (base.getD x 0 :: r.1, r.2)

/-- One slice of descramble_chunk: build the scrambling table, then swap the
bit pairs up to min(table_size, remaining_chunk_bytes * 8); the shift by 3 is
taken mod 2^32 as in the uint32 C expression. -/
def slicePairs (k slice sb rem s : Nat) : List ((Nat × Nat) × (Nat × Nat)) × Nat :=
  let T := slice * 8
  let r := pickLoop k T T s (baseTable T)
  let limit := min T (rem * 8 % 4294967296)
  (toPairs sb (r.1.take limit), r.2)

/-- The slice loop of descramble_chunk (gust_enc.c lines 72-108): fuel is the
number of slices, sb the running slice base, rem the remaining chunk size. -/
def sliceLoop (k slice : Nat) : Nat → Nat → Nat → List Nat → Nat → List Nat × Nat
  | 0, _, _, buf, s => (buf, s)
  | fuel + 1, sb, rem, buf, s =>
    let ps := slicePairs k slice sb rem s
    sliceLoop k slice fuel (sb + slice) (rem - slice) (applyPairs buf ps.1) ps.2

/-- Number of iterations of the while loop at gust_enc.c line 72: the chunk
pointer advances by slice_size until it passes chunk_size. -/
def numSlices (cs slice : Nat) : Nat := (cs + slice - 1) / slice

/-- The bit-swap pass descramble_chunk (gust_enc.c lines 58-113).  The list
buf models the memory starting at the chunk pointer (it may extend past cs,
as the code freely addresses the final slice in full); cs is chunk_size.
Returns the transformed memory and the final PRNG state.  A table size
below 4 (only possible for slice = 0) makes the C function return false
without touching the buffer. -/
def descramble_chunk (buf : List Nat) (cs : Nat) (seed : Nat × Nat) (slice : Nat) :
    List Nat × Nat :=
  if slice * 8 < 4 then (buf, seed.2)
  else sliceLoop seed.1 slice (numSlices cs slice) 0 cs buf seed.2

/-- The swap-position list of the whole pass, independent of the buffer. -/
def flatPairs (k slice : Nat) : Nat → Nat → Nat → Nat → List ((Nat × Nat) × (Nat × Nat))
  | 0, _, _, _ => []
  | fuel + 1, sb, rem, s =>
    let ps := slicePairs k slice sb rem s
    ps.1 ++ flatPairs k slice fuel (sb + slice) (rem - slice) ps.2

/-- All (byte, bit) positions referenced by a swap list, in order. -/
def posOf : List ((Nat × Nat) × (Nat × Nat)) → List (Nat × Nat)
  | [] => []
  | (P0, P1) :: r => P0 :: P1 :: posOf r

/-- Well-formedness of a swap list for a buffer of the given length: all
referenced positions are pairwise distinct, in range, and name bits 0..7. -/
def goodPairs (len : Nat) (L : List ((Nat × Nat) × (Nat × Nat))) : Prop :=
  (posOf L).Nodup ∧ ∀ P ∈ posOf L, P.1 < len ∧ P.2 < 8

/-- The (byte, bit) permutation induced by a swap list with pairwise
distinct positions: each position is exchanged with its partner. -/
def swapFn : List ((Nat × Nat) × (Nat × Nat)) → (Nat × Nat) → (Nat × Nat)
  | [], X => X
  | (P0, P1) :: r, X => if X = P0 then P1 else if X = P1 then P0 else swapFn r X

/-! Descrambler 1 (gust_enc.c lines 115-140). -/

/-- The per-title seed set of gust_enc.c (struct seed_data). -/
structure seed_data where
  main : List Nat
  table : List Nat
  length : List Nat
  fence : Nat
deriving DecidableEq

/-- The 16-bit word loop of descrambler1 (gust_enc.c lines 127-137).  The C
code evaluates x % fence with no guard; a zero fence is division by zero,
modelled as the distinguished result none. -/
def d1Loop (k fence : Nat) : Nat → Nat → Nat → List Nat → Option (List Nat)
  | 0, _, _, buf => some buf
  | fuel + 1, i, s, buf =>
    let s1 := lcg k s
    let x := (s1 >>> 16) &&& 0x7fff
    if fence = 0 then none
    else
      let w := getbe16 buf i
      let w1 := if x % fence ≥ fence / 2 then w ^^^ x else w
      let w2 := (w1 + 65536 - x % 65536) % 65536
      d1Loop k fence fuel (i + 2) s1 (setbe16 buf i w2)

/-- Descrambler 1 (gust_enc.c lines 115-140): bit-swap the last
min(size, 0x800) bytes with slice 0x100, then run the conditional-XOR /
subtract word loop over the whole buffer. -/
def descrambler1 (buf : List Nat) (seeds : seed_data) : Option (List Nat) :=
  let cs := min buf.length 0x800
  let start := buf.length - cs
  let tail := (descramble_chunk (buf.drop start) cs (SEED_CONSTANT, seeds.main.getD 0 0) 0x100).1
  let buf1 := buf.take start ++ tail
  d1Loop SEED_CONSTANT seeds.fence ((buf.length + 1) / 2) 0 (seeds.main.getD 1 0) buf1

/-! Descrambler 2 (gust_enc.c lines 142-200). -/

/-- Error outcomes of descrambler2. -/
inductive d2_error where
  | sizeErr
  | markerErr
  | checksumErr
deriving DecidableEq

/-- Backward scan for the 0xFF end marker (gust_enc.c line 159): starting at
the given index, walk down while the byte differs from 0xFF, stopping at 0. -/
def scanFF (buf : List Nat) : Nat → Nat
  | 0 => 0
  | i + 1 => if buf.getD (i + 1) 0 = 0xff then i + 1 else scanFF buf i

/-- The per-byte XOR loop of descrambler2 (gust_enc.c lines 166-181),
including the rotating seed-table update: on a switch the evolved PRNG state
is stored back into the table, the index advances (wrapping to 0 with a
fudge increment), and the state reloads from the table.  Returns the
processed buffer and the final table. -/
def xorLoop (k : Nat) (lengths : List Nat) :
    Nat → Nat → Nat → List Nat → Nat → Nat → Nat → List Nat → List Nat × List Nat
  | 0, _, _, table, _, _, _, buf => (buf, table)
  | fuel + 1, pos, s, table, idx, fudge, proc, buf =>
    let s1 := lcg k s
    let buf1 := buf.set pos ((buf.getD pos 0 ^^^ (s1 >>> 16)) % 256)
    let proc1 := proc + 1
    if proc1 ≥ lengths.getD idx 0 + fudge then
      let table1 := table.set idx s1
      let idx1 := idx + 1
      let idx2 := if idx1 ≥ 3 then 0 else idx1
      let fudge2 := if idx1 ≥ 3 then fudge + 1 else fudge
      xorLoop k lengths fuel (pos + 1) (table1.getD idx2 0) table1 idx2 fudge2 0 buf1
    else
      xorLoop k lengths fuel (pos + 1) s1 table idx fudge proc1 buf1

/-- The checksum loop of descrambler2 (gust_enc.c lines 186-189): over
big-endian 32-bit words, c0 accumulates XOR of the uint32 complements and c1
the wrapping subtraction. -/
def checksumLoop : Nat → Nat → Nat → Nat → List Nat → Nat × Nat
  | 0, _, c0, c1, _ => (c0, c1)
  | fuel + 1, i, c0, c1, buf =>
    let w := getbe32 buf i
    checksumLoop fuel (i + 4) (c0 ^^^ (w ^^^ 0xffffffff)) ((c1 + (4294967296 - w)) % 4294967296) buf

/-- Descrambler 2 (gust_enc.c lines 142-200).  Returns the error outcome (if
any), the buffer as left by the call, and the seed structure as left by the
call (the XOR loop stores evolved PRNG states into seeds.table). -/
def descrambler2 (buf : List Nat) (seeds : seed_data) :
    Option d2_error × List Nat × seed_data :=
  if buf.length % 4 ≠ 0 ∨ buf.length < 16 then (some .sizeErr, buf, seeds)
  else
    let size := buf.length
    let k := (getbe32 buf (size - 4) + SEED_CONSTANT) % 4294967296
    let ck0 := getbe32 buf (size - 8)
    let ck1 := getbe32 buf (size - 12)
    let e := scanFF buf (size - 13)
    if e < 4 ∨ buf.getD e 0 ≠ 0xff then (some .markerErr, buf, seeds)
    else
      let r := xorLoop k seeds.length e 0 (seeds.table.getD 0 0) seeds.table 0 0 0 buf
      let buf2 := r.1.set e 0
      let n := e &&& 0xfffffffc
      let c := checksumLoop (n / 4) 0 0 0 buf2
      let seeds1 : seed_data := { seeds with table := r.2 }
      if c.1 ≠ ck0 ∨ c.2 ≠ ck1 then (some .checksumErr, buf2, seeds1)
      else
        (none, (descramble_chunk buf2 (min n 0x800) (SEED_CONSTANT, seeds.main.getD 2 0) 0x80).1,
          seeds1)

/-! The Glaze decompressor (gust_enc.c lines 202-377). -/

/-- The bit-reader state of gust_enc.c (struct getbits_ctx). -/
structure getbits_ctx where
  buffer : List Nat
  size : Nat
  pos : Nat
  gbuf : Nat
  gmask : Nat
deriving DecidableEq

/-- The EOF sentinel (uint32_t)EOF returned by getbits. -/
def EOFv : Nat := 0xffffffff

/-- The bit extraction loop of getbits (gust_enc.c lines 215-233): MSB first,
refilling the byte register when the mask runs out; on exhaustion the
sentinel is returned with the context as mutated so far. -/
def getbitsAux : Nat → Nat → getbits_ctx → Nat × getbits_ctx
  | 0, x, ctx => (x, ctx)
  | n + 1, x, ctx =>
    if ctx.gmask = 0 then
      if ctx.size ≤ ctx.pos then (EOFv, ctx)
      else
        let b := ctx.buffer.getD ctx.pos 0
        getbitsAux n (x * 2 + (if b &&& 0x80 ≠ 0 then 1 else 0))
          ⟨ctx.buffer, ctx.size, ctx.pos + 1, b, 0x80 >>> 1⟩
    else
      getbitsAux n (x * 2 + (if ctx.gbuf &&& ctx.gmask ≠ 0 then 1 else 0))
        ⟨ctx.buffer, ctx.size, ctx.pos, ctx.gbuf, ctx.gmask >>> 1⟩

/-- Read n bits MSB-first (gust_enc.c getbits). -/
def getbits (ctx : getbits_ctx) (n : Nat) : Nat × getbits_ctx := getbitsAux n 0 ctx

/-- The zero-run loop of build_code_table (gust_enc.c line 255):
while (++code_len < 8 and the next bit is 0); returns (code_len, last bit,
context).  Fuel 8 always suffices since code_len is bounded by 8. -/
def zeroRun : Nat → Nat → Nat → getbits_ctx → Nat × Nat × getbits_ctx
  | 0, cl, c, ctx => (cl, c, ctx)
  | fuel + 1, cl, c, ctx =>
    let cl1 := cl + 1
    if cl1 < 8 then
      let r := getbits ctx 1
      if r.1 = 0 then zeroRun fuel cl1 r.1 r.2 else (cl1, r.1, r.2)
    else (cl1, c, ctx)

/-- Decode one opcode of the prefix code (the body of the for loop of
build_code_table, gust_enc.c lines 246-263).  none means the loop breaks
with no byte emitted for this index. -/
def decodeOp (ctx : getbits_ctx) : Option Nat × getbits_ctx :=
  let r := getbits ctx 1
  if r.1 = EOFv then (none, r.2)
  else if r.1 = 1 then (some 1, r.2)
  else
    let z := zeroRun 8 0 0 r.2
    if z.2.1 = EOFv then (none, z.2.2)
    else if z.1 < 8 then
      let v := getbits z.2.2 z.1
      (some (((z.2.1 <<< z.1) ||| v.1) % 256), v.2)
    else (some 0, z.2.2)

/-- The emission loop of build_code_table: decode up to the declared number
of opcodes, stopping early (and emitting nothing further) when decodeOp
breaks.  Entries past the break are never written by the C code (they stay
uninitialized), so the result is just the emitted prefix. -/
def buildLoop : getbits_ctx → Nat → List Nat
  | _, 0 => []
  | ctx, n + 1 =>
    let r := decodeOp ctx
    match r.1 with
    | none => []
    | some b => b :: buildLoop r.2 n

/-- Opcode-table recovery (gust_enc.c lines 236-266): the declared length is
the big-endian word at the head of the bitstream, the bits follow. -/
def build_code_table (bitstream : List Nat) (blen : Nat) : Nat × List Nat :=
  let clen := getbe32 bitstream 0
  (clen, buildLoop ⟨bitstream.drop 4, blen - 4, 0, 0, 0⟩ clen)

/-- Result of unglaze: either one of the error returns of gust_enc.c
lines 273-327 or the success path carrying the bytes written to dst
(possibly more than the declared output length, since the copy loops do not
check dst against dst_max). -/
inductive glaze_result where
  | sizeMismatch (dec : Nat)
  | bsTooSmall
  | bsTooLarge
  | dictTooLarge
  | lenTooLarge
  | overflow
  | outOfFuel
  | ok (dst : List Nat)
deriving DecidableEq

/-- Append cnt bytes, each read back d positions from the current end of dst
(the overlapping-copy loops of opcodes 3, 4, 5). -/
def copyBack (dst : List Nat) (d : Nat) : Nat → List Nat
  | 0 => dst
  | c + 1 => copyBack (dst ++ [dst.getD (dst.length - d) 0]) d c

/-- Append cnt bytes copied from src starting at absolute offset dp (the
literal-run loops of opcodes 6 and 7). -/
def copyFwd (src : List Nat) (dp cnt : Nat) (dst : List Nat) : List Nat :=
  dst ++ (List.range cnt).map (fun j => src.getD (dp + j) 0)

/-- The opcode machine of unglaze (gust_enc.c lines 321-373).  cp, dp, lp are
the absolute cursors into the code table, the dict region and the length
region; the sanity check at the top of each iteration compares them with
strict inequality against the region ends.  A switch case that matches no
opcode in 1..7 falls through: only the opcode byte is consumed.  The fuel
bounds the iteration count; the code cursor strictly increases every
iteration, so code_len + dst_len + 8 iterations can never be exhausted. -/
def execLoop (src codeTable : List Nat) (maxCode maxDict maxLen dstLen : Nat) :
    Nat → Nat → Nat → Nat → List Nat → glaze_result
  | 0, _, _, _, _ => .outOfFuel
  | fuel + 1, cp, dp, lp, dst =>
    if dstLen ≤ dst.length then .ok dst
    else if maxDict < dp ∨ maxLen < lp ∨ maxCode < cp then .overflow
    else
      let op := codeTable.getD cp 0
      if op = 1 then
        execLoop src codeTable maxCode maxDict maxLen dstLen fuel (cp + 1) (dp + 1) lp
          (dst ++ [src.getD dp 0])
      else if op = 2 then
        let d := codeTable.getD (cp + 1) 0
        execLoop src codeTable maxCode maxDict maxLen dstLen fuel (cp + 2) dp lp
          (dst ++ [dst.getD (dst.length - d) 0])
      else if op = 3 then
        let d := codeTable.getD (cp + 1) 0
        let l := codeTable.getD (cp + 2) 0
        execLoop src codeTable maxCode maxDict maxLen dstLen fuel (cp + 3) dp lp
          (copyBack dst (d + l) (l + 1))
      else if op = 4 then
        let l := codeTable.getD (cp + 1) 0
        let d := src.getD dp 0 + l
        execLoop src codeTable maxCode maxDict maxLen dstLen fuel (cp + 2) (dp + 1) lp
          (copyBack dst d (l + 1))
      else if op = 5 then
        let dhi := codeTable.getD (cp + 1) 0
        let d := (dhi <<< 8 ||| src.getD dp 0) + codeTable.getD (cp + 2) 0
        let l := codeTable.getD (cp + 2) 0
        execLoop src codeTable maxCode maxDict maxLen dstLen fuel (cp + 3) (dp + 1) lp
          (copyBack dst d (l + 1))
      else if op = 6 then
        let l := codeTable.getD (cp + 1) 0 + 8
        execLoop src codeTable maxCode maxDict maxLen dstLen fuel (cp + 2) (dp + l) lp
          (copyFwd src dp l dst)
      else if op = 7 then
        let l := src.getD lp 0 + 14
        execLoop src codeTable maxCode maxDict maxLen dstLen fuel (cp + 1) (dp + l) (lp + 1)
          (copyFwd src dp l dst)
      else
        execLoop src codeTable maxCode maxDict maxLen dstLen fuel (cp + 1) dp lp dst

/-- The Glaze decompressor unglaze (gust_enc.c lines 269-377).  src models
the full input region, src_length the src_length argument, dst_length the
declared destination size.  All cursors are absolute offsets into src. -/
def unglaze (src : List Nat) (src_length dst_length : Nat) : glaze_result :=
  let dec := getbe32 src 0
  if dec ≠ dst_length then .sizeMismatch dec
  else
    let blen := getbe32 src 4
    if blen ≤ 4 then .bsTooSmall
    else if src_length ≤ blen + 4 then .bsTooLarge
    else
      let ct := build_code_table (src.drop 8) blen
      let dictLenOff := 8 + blen
      let dlen := getbe32 src dictLenOff
      if src_length ≤ blen + 4 + dlen + 4 then .dictTooLarge
      else
        let dictOff := dictLenOff + 4
        let maxDict := dictOff + dlen
        let llen := getbe32 src maxDict
        if src_length ≤ blen + 4 + dlen + 4 + llen + 4 then .lenTooLarge
        else
          let lenOff := maxDict + 4
          let maxLen := lenOff + llen
          execLoop src ct.2 ct.1 maxDict maxLen dec (ct.1 + dec + 8) 0 dictOff lenOff []

/-! PAK reader (src/Pak_Decrypt.c). -/

/-- The key XOR unmask decode of Pak_Decrypt.c lines 123-127: byte i of the
buffer is XORed with key byte i mod 20. -/
def decodeAux (k : List Nat) : List Nat → Nat → List Nat
  | [], _ => []
  | x :: xs, i => (x ^^^ k.getD (i % 20) 0) :: decodeAux k xs (i + 1)

/-- XOR-unmask a buffer against a 20-byte key (Pak_Decrypt.c decode). -/
def decode (a k : List Nat) : List Nat := decodeAux k a 0

/-- The data_offset candidate values read by the layout autodetect
(Pak_Decrypt.c lines 177-178) from the raw entry bytes: the 32-bit layout
reads the little-endian word at stride 160 offset 152; the 64-bit layout
takes data_offset shr 32, i.e. the little-endian word at stride 168 offset
156. -/
def val32 (bytes : List Nat) (i : Nat) : Nat := getle32 bytes (160 * i + 152)

/-- High 32 bits of the 64-bit data_offset of entry i (see val32). -/
def val64hi (bytes : List Nat) (i : Nat) : Nat := getle32 bytes (168 * i + 156)

/-- Absolute difference as written at Pak_Decrypt.c line 180. -/
def absDelta (v last : Nat) : Nat := if v > last then v - last else last - v

/-- The autodetect summation loop of Pak_Decrypt.c lines 174-183. -/
def detectLoop (bytes : List Nat) : Nat → Nat → Nat → Nat → Nat → Nat → Nat × Nat
  | 0, _, _, _, s0, s1 => (s0, s1)
  | fuel + 1, i, last0, last1, s0, s1 =>
    let v0 := val32 bytes i
    let v1 := val64hi bytes i
    detectLoop bytes fuel (i + 1) v0 v1 (s0 + absDelta v0 last0) (s1 + absDelta v1 last1)

/-- Layout autodetect (Pak_Decrypt.c lines 174-184): sum the absolute deltas
over the first min(nb_entries, 64) entries and pick 32-bit exactly when its
sum is strictly smaller. -/
def detectPak32 (bytes : List Nat) (nbEntries : Nat) : Bool :=
  let r := detectLoop bytes (min nbEntries 64) 0 0 0 0 0
  r.1 < r.2

/-- Sum of absolute deltas of successive values, starting from last = 0,
written directly on a list of values (used to state what the detector
computes). -/
def listDeltaSum (last : Nat) : List Nat → Nat
  | [] => 0
  | v :: r => absDelta v last + listDeltaSum v r

/-- The 32-bit candidate offset values of the first min(n, 64) entries. -/
def vals32 (bytes : List Nat) (n : Nat) : List Nat :=
  (List.range (min n 64)).map (val32 bytes)

/-- The high words of the 64-bit candidate offsets of the first
min(n, 64) entries. -/
def vals64hi (bytes : List Nat) (n : Nat) : List Nat :=
  (List.range (min n 64)).map (val64hi bytes)

/-- The big-endian 32-bit words at offsets 0, 4, 8, ... below n (the word
list the claim's checksum formula ranges over). -/
def beWords (buf : List Nat) (n : Nat) : List Nat :=
  (List.range' 0 (n / 4) 4).map (getbe32 buf)

/-- Running XOR of the uint32 complements over a word list (the claim's
formula for c0). -/
def specC0 (ws : List Nat) : Nat := ws.foldl (fun a w => a ^^^ (w ^^^ 0xffffffff)) 0

/-- Running wrapping subtraction over a word list (the claim's formula
for c1). -/
def specC1 (ws : List Nat) : Nat :=
  ws.foldl (fun a w => (a + (4294967296 - w)) % 4294967296) 0

/-! Concrete inputs for the scenario-based claims. -/

/-- The S5 Glaze stream: out_len 10, opcode stream encoding [1, 1, 6, 2],
dict ABCCDEFGHIJ, empty length table. -/
def s5src : List Nat :=
  [0, 0, 0, 10,
   0, 0, 0, 6,
   0, 0, 0, 4, 0xcc, 0x80,
   0, 0, 0, 11, 65, 66, 67, 67, 68, 69, 70, 71, 72, 73, 74,
   0, 0, 0, 0]

/-- A Glaze stream whose opcode table decodes to [0x00, 0x01] with out_len 1
and dict of the single byte 65. -/
def c2src : List Nat :=
  [0, 0, 0, 1,
   0, 0, 0, 6,
   0, 0, 0, 2, 0x00, 0x80,
   0, 0, 0, 1, 65,
   0, 0, 0, 0]

/-- A 20-byte descrambler2 input with the end marker at index 7 and zeroed
tail words. -/
def bufA : List Nat :=
  [0, 0, 0, 0, 0, 0, 0, 0xff, 0, 0, 0, 0, 0, 0, 0, 0, 0, 0, 0, 0]

/-- A 20-byte descrambler2 input containing no 0xFF byte at all. -/
def bufB : List Nat :=
  [0, 0, 0, 0, 0, 0, 0, 0, 0, 0, 0, 0, 0, 0, 0, 0, 0, 0, 0, 0]

/-- A seed set whose first length threshold fires on the first processed
byte, so the very first XOR-loop step stores an evolved PRNG state into the
seed table. -/
def seedsA : seed_data := ⟨[0, 0, 0], [1, 2, 3], [1, 99, 99], 5⟩

/-- A seed set whose first length threshold is larger than any end marker
position in a 20-byte buffer, so no seed switch can fire. -/
def seedsB : seed_data := ⟨[0, 0, 0], [1, 2, 3], [100, 99, 99], 5⟩

/-- A 257-byte buffer used to exercise descramble_chunk with slice size
0x101, where the uint8_t cast of the byte position truncates. -/
def cexBuf : List Nat := (List.range 257).map (fun i => (i * 7 + 1) % 256)

/-- A 512-byte buffer for the S6 round-trip witness. -/
def s6buf : List Nat := (List.range 512).map (fun i => (i * 7 + 1) % 256)

/-- The S1 entry-table bytes under the natural zero-padded concretization:
two entries, all bytes zero except the 32-bit data_offset of entry 1
(little-endian 0x200 at offset 160 + 152 = 312).  The buffer is the
nb_entries * 168 bytes the reader loads. -/
def s1bytes : List Nat :=
  (List.range 336).map (fun i => if i = 313 then 2 else 0)

/-! Byte-level bit lemmas. -/

theorem bitOf_eq (x c : Nat) : bitOf x c = (x.testBit c).toNat := by
  unfold bitOf
  rw [Nat.one_shiftLeft, Nat.and_two_pow, Nat.shiftRight_eq_div_pow,
    Nat.mul_div_cancel _ (Nat.two_pow_pos c)]

theorem bitOf_le_one (x c : Nat) : bitOf x c ≤ 1 := by
  rw [bitOf_eq]; cases x.testBit c <;> simp

theorem bitOf_eq_one_iff (x c : Nat) : (bitOf x c = 1) ↔ x.testBit c = true := by
  rw [bitOf_eq]; cases x.testBit c <;> simp

theorem testBit_updBit (x b v c : Nat) (hb : b < 8) (hc : c < 8) (hv : v ≤ 1) :
    (updBit x b v).testBit c = if c = b then decide (v = 1) else x.testBit c := by
  unfold updBit
  have h255 : (255 : Nat).testBit c = true := by
    have h : (255 : Nat) = 2 ^ 8 - 1 := by norm_num
    rw [h, Nat.testBit_two_pow_sub_one]; simpa using hc
  rw [Nat.testBit_or, Nat.testBit_and, Nat.testBit_xor, h255, Nat.one_shiftLeft,
    Nat.testBit_two_pow, Nat.testBit_shiftLeft]
  interval_cases v
  · simp only [Nat.zero_testBit, Bool.and_false, Bool.or_false, decide_eq_true_eq]
    by_cases hcb : c = b
    · subst hcb; simp
    · simp [hcb, Ne.symm hcb]
  · have h1 : ∀ k, Nat.testBit 1 k = decide (0 = k) := by
      intro k
      have h : (1 : Nat) = 2 ^ 0 := by norm_num
      rw [h, Nat.testBit_two_pow]
    rw [h1]
    by_cases hcb : c = b
    · subst hcb; simp
    · rcases Nat.lt_or_ge c b with hlt | hge
      · have : ¬(b ≤ c) := by omega
        simp [hcb, Ne.symm hcb, this]
      · have hne0 : (0 : Nat) ≠ c - b := by omega
        simp [hcb, Ne.symm hcb, hne0, hge]

theorem updBit_lt (x b v : Nat) (hb : b < 8) (hv : v ≤ 1) : updBit x b v < 256 := by
  unfold updBit
  have h256 : (256 : Nat) = 2 ^ 8 := by norm_num
  have hm : (255 ^^^ (1 <<< b) : Nat) < 256 := by
    rw [h256]
    apply Nat.xor_lt_two_pow (by norm_num)
    rw [Nat.one_shiftLeft]
    exact Nat.lt_of_lt_of_le (Nat.pow_lt_pow_right (by omega) hb) (by norm_num)
  have h1 : x &&& (255 ^^^ (1 <<< b)) < 256 :=
    Nat.lt_of_le_of_lt Nat.and_le_right hm
  have h2 : v <<< b < 256 := by
    rw [Nat.shiftLeft_eq]
    have h : v * 2 ^ b ≤ 1 * 2 ^ 7 :=
      Nat.mul_le_mul hv (Nat.pow_le_pow_right (by omega) (by omega))
    omega
  rw [h256] at h1 h2 ⊢
  exact Nat.or_lt_two_pow h1 h2

theorem byte_ext (x y : Nat) (hx : x < 256) (hy : y < 256)
    (h : ∀ c, c < 8 → x.testBit c = y.testBit c) : x = y := by
  apply Nat.eq_of_testBit_eq
  intro i
  rcases Nat.lt_or_ge i 8 with hi | hi
  · exact h i hi
  · have hxi : x.testBit i = false := Nat.testBit_lt_two_pow
      (Nat.lt_of_lt_of_le hx (by calc (256 : Nat) = 2 ^ 8 := by norm_num
                                  _ ≤ 2 ^ i := Nat.pow_le_pow_right (by omega) hi))
    have hyi : y.testBit i = false := Nat.testBit_lt_two_pow
      (Nat.lt_of_lt_of_le hy (by calc (256 : Nat) = 2 ^ 8 := by norm_num
                                  _ ≤ 2 ^ i := Nat.pow_le_pow_right (by omega) hi))
    rw [hxi, hyi]

/-! List getD helpers. -/

theorem getD_set_ne (l : List Nat) {i j : Nat} (a : Nat) (h : i ≠ j) :
    (l.set i a).getD j 0 = l.getD j 0 := by
  simp [List.getD, List.getElem?_set_ne h]

theorem getD_set_self (l : List Nat) {i : Nat} (a : Nat) (h : i < l.length) :
    (l.set i a).getD i 0 = a := by
  simp [List.getD, List.getElem?_set_self, h]

theorem getD_lt (l : List Nat) {i : Nat} (h : i < l.length) : l.getD i 0 = l[i] := by
  simp [List.getD, List.getElem?_eq_getElem h]

theorem getD_mem_lt (l : List Nat) (i : Nat) (hb : ∀ x ∈ l, x < 256) (h : i < l.length) :
    l.getD i 0 < 256 := by
  rw [getD_lt l h]
  exact hb _ (List.getElem_mem h)

/-! Properties of a single bit swap. -/

theorem length_doSwap (buf : List Nat) (P0 P1 : Nat × Nat) :
    (doSwap buf P0 P1).length = buf.length := by
  simp [doSwap]

theorem mem_doSwap_lt (buf : List Nat) (P0 P1 : Nat × Nat)
    (hb0 : P0.2 < 8) (hb1 : P1.2 < 8) (hbytes : ∀ x ∈ buf, x < 256) :
    ∀ x ∈ doSwap buf P0 P1, x < 256 := by
  intro x hx
  unfold doSwap at hx
  rcases List.mem_or_eq_of_mem_set hx with hx1 | hx1
  · rcases List.mem_or_eq_of_mem_set hx1 with hx2 | hx2
    · exact hbytes x hx2
    · subst hx2; exact updBit_lt _ _ _ hb0 (bitOf_le_one _ _)
  · subst hx1; exact updBit_lt _ _ _ hb1 (bitOf_le_one _ _)

theorem decide_bitOf_eq_one (x b : Nat) : decide (bitOf x b = 1) = x.testBit b := by
  cases h : x.testBit b <;> simp [bitOf_eq, h]

theorem getD_doSwap (buf : List Nat) (p0 b0 p1 b1 q : Nat)
    (hp0 : p0 < buf.length) (hp1 : p1 < buf.length) :
    (doSwap buf (p0, b0) (p1, b1)).getD q 0 =
      if q = p1 then
        updBit (if p1 = p0 then updBit (buf.getD p0 0) b0 (bitOf (buf.getD p1 0) b1)
                else buf.getD p1 0) b1 (bitOf (buf.getD p0 0) b0)
      else if q = p0 then updBit (buf.getD p0 0) b0 (bitOf (buf.getD p1 0) b1)
      else buf.getD q 0 := by
  unfold doSwap
  simp only
  have hmid : (buf.set p0 (updBit (buf.getD p0 0) b0 (bitOf (buf.getD p1 0) b1))).getD p1 0 =
      if p1 = p0 then updBit (buf.getD p0 0) b0 (bitOf (buf.getD p1 0) b1)
      else buf.getD p1 0 := by
    by_cases h : p1 = p0
    · rw [if_pos h, h, getD_set_self _ _ hp0]
    · rw [if_neg h, getD_set_ne _ _ (fun hh => h hh.symm)]
  rw [hmid]
  by_cases h1 : q = p1
  · rw [if_pos h1, h1, getD_set_self _ _ (by simpa using hp1)]
  · rw [if_neg h1, getD_set_ne _ _ (fun hh => h1 hh.symm)]
    by_cases h0 : q = p0
    · rw [if_pos h0, h0, getD_set_self _ _ hp0]
    · rw [if_neg h0, getD_set_ne _ _ (fun hh => h0 hh.symm)]

theorem testBit_doSwap (buf : List Nat) (p0 b0 p1 b1 q c : Nat)
    (hp0 : p0 < buf.length) (hp1 : p1 < buf.length)
    (hb0 : b0 < 8) (hb1 : b1 < 8) (hne : (p0, b0) ≠ (p1, b1))
    (hqb : c < 8) :
    ((doSwap buf (p0, b0) (p1, b1)).getD q 0).testBit c =
      if q = p0 ∧ c = b0 then (buf.getD p1 0).testBit b1
      else if q = p1 ∧ c = b1 then (buf.getD p0 0).testBit b0
      else (buf.getD q 0).testBit c := by
  have hne2 : ¬(p0 = p1 ∧ b0 = b1) := by
    intro h; exact hne (by rw [h.1, h.2])
  rw [getD_doSwap buf p0 b0 p1 b1 q hp0 hp1]
  by_cases h1 : q = p1
  · rw [if_pos h1]
    by_cases h0 : p1 = p0
    · have hbne : b0 ≠ b1 := fun h => hne2 ⟨h0.symm, h⟩
      rw [if_pos h0]
      rw [testBit_updBit _ _ _ _ hb1 hqb (bitOf_le_one _ _)]
      by_cases hc1 : c = b1
      · rw [if_pos hc1, decide_bitOf_eq_one]
        rw [if_neg (by rintro ⟨_, hcc⟩; exact hbne (hcc.symm.trans hc1))]
        rw [if_pos ⟨h1, hc1⟩]
      · rw [if_neg hc1]
        rw [testBit_updBit _ _ _ _ hb0 hqb (bitOf_le_one _ _)]
        by_cases hc0 : c = b0
        · rw [if_pos hc0, decide_bitOf_eq_one, if_pos ⟨h1.trans h0, hc0⟩]
        · rw [if_neg hc0, if_neg (by rintro ⟨_, hcc⟩; exact hc0 hcc),
            if_neg (by rintro ⟨_, hcc⟩; exact hc1 hcc), h1, h0]
    · rw [if_neg h0]
      rw [testBit_updBit _ _ _ _ hb1 hqb (bitOf_le_one _ _)]
      by_cases hc1 : c = b1
      · rw [if_pos hc1, decide_bitOf_eq_one,
          if_neg (by rintro ⟨hqq, _⟩; exact h0 (h1.symm.trans hqq)), if_pos ⟨h1, hc1⟩]
      · rw [if_neg hc1, if_neg (by rintro ⟨hqq, _⟩; exact h0 (h1.symm.trans hqq)),
          if_neg (by rintro ⟨_, hcc⟩; exact hc1 hcc), h1]
  · rw [if_neg h1]
    by_cases h0 : q = p0
    · rw [if_pos h0]
      rw [testBit_updBit _ _ _ _ hb0 hqb (bitOf_le_one _ _)]
      by_cases hc0 : c = b0
      · rw [if_pos hc0, decide_bitOf_eq_one, if_pos ⟨h0, hc0⟩]
      · rw [if_neg hc0, if_neg (by rintro ⟨_, hcc⟩; exact hc0 hcc),
          if_neg (by rintro ⟨hqq, _⟩; exact h1 hqq), h0]
    · rw [if_neg h0, if_neg (by rintro ⟨hqq, _⟩; exact h0 hqq),
        if_neg (by rintro ⟨hqq, _⟩; exact h1 hqq)]

theorem buffer_ext (b1 b2 : List Nat) (hlen : b1.length = b2.length)
    (hm1 : ∀ x ∈ b1, x < 256) (hm2 : ∀ x ∈ b2, x < 256)
    (h : ∀ p, p < b1.length → ∀ c, c < 8 → (b1.getD p 0).testBit c = (b2.getD p 0).testBit c) :
    b1 = b2 := by
  apply List.ext_getElem hlen
  intro p hp1 hp2
  apply byte_ext _ _ (hm1 _ (List.getElem_mem hp1)) (hm2 _ (List.getElem_mem hp2))
  intro c hc
  have := h p hp1 c hc
  rwa [getD_lt b1 hp1, getD_lt b2 hp2] at this

/-! Properties of swap lists. -/

theorem length_applyPairs (L : List ((Nat × Nat) × (Nat × Nat))) :
    ∀ buf, (applyPairs buf L).length = buf.length := by
  induction L with
  | nil => intro buf; rfl
  | cons P rest ih =>
    intro buf
    obtain ⟨P0, P1⟩ := P
    rw [applyPairs, ih, length_doSwap]

theorem mem_applyPairs_lt (L : List ((Nat × Nat) × (Nat × Nat)))
    (hg : ∀ P ∈ posOf L, P.2 < 8) :
    ∀ buf, (∀ x ∈ buf, x < 256) → ∀ x ∈ applyPairs buf L, x < 256 := by
  induction L with
  | nil => intro buf hb; exact hb
  | cons P rest ih =>
    intro buf hb
    obtain ⟨P0, P1⟩ := P
    rw [applyPairs]
    refine ih (fun Q hQ => hg Q (by simp [posOf, hQ])) _
      (mem_doSwap_lt buf P0 P1 (hg P0 (by simp [posOf])) (hg P1 (by simp [posOf])) hb)

theorem applyPairs_append (L1 L2 : List ((Nat × Nat) × (Nat × Nat))) :
    ∀ buf, applyPairs buf (L1 ++ L2) = applyPairs (applyPairs buf L1) L2 := by
  induction L1 with
  | nil => intro buf; rfl
  | cons P rest ih =>
    intro buf
    obtain ⟨P0, P1⟩ := P
    rw [List.cons_append, applyPairs, applyPairs, ih]

theorem posOf_append (L1 L2 : List ((Nat × Nat) × (Nat × Nat))) :
    posOf (L1 ++ L2) = posOf L1 ++ posOf L2 := by
  induction L1 with
  | nil => rfl
  | cons P rest ih =>
    obtain ⟨P0, P1⟩ := P
    rw [List.cons_append, posOf, posOf, ih, List.cons_append, List.cons_append]

theorem swapFn_eq_of_not_mem (X : Nat × Nat) :
    ∀ L, X ∉ posOf L → swapFn L X = X := by
  intro L
  induction L with
  | nil => intro _; rfl
  | cons R rest ih =>
    intro h
    obtain ⟨P0, P1⟩ := R
    rw [posOf] at h
    rw [swapFn, if_neg (by intro hh; exact h (by simp [hh])),
      if_neg (by intro hh; exact h (by simp [hh]))]
    exact ih (fun hh => h (by simp [hh]))

theorem swapFn_mem (X : Nat × Nat) :
    ∀ L, swapFn L X = X ∨ swapFn L X ∈ posOf L := by
  intro L
  induction L with
  | nil => exact Or.inl rfl
  | cons R rest ih =>
    obtain ⟨P0, P1⟩ := R
    rw [swapFn, posOf]
    by_cases h0 : X = P0
    · rw [if_pos h0]; exact Or.inr (by simp)
    · rw [if_neg h0]
      by_cases h1 : X = P1
      · rw [if_pos h1]; exact Or.inr (by simp)
      · rw [if_neg h1]
        rcases ih with h | h
        · exact Or.inl h
        · exact Or.inr (by simp [h])

theorem swapFn_invol (X : Nat × Nat) :
    ∀ L, (posOf L).Nodup → swapFn L (swapFn L X) = X := by
  intro L
  induction L generalizing X with
  | nil => intro _; rfl
  | cons R rest ih =>
    intro hnd
    obtain ⟨P0, P1⟩ := R
    rw [posOf] at hnd
    have h0r : P0 ∉ posOf rest := by
      have := (List.nodup_cons.mp hnd).1
      intro hh; exact this (by simp [hh])
    have h1r : P1 ∉ posOf rest := (List.nodup_cons.mp (List.nodup_cons.mp hnd).2).1
    have h01 : P0 ≠ P1 := by
      have := (List.nodup_cons.mp hnd).1
      intro hh; exact this (by simp [hh])
    have hrest : (posOf rest).Nodup := (List.nodup_cons.mp (List.nodup_cons.mp hnd).2).2
    have hunf : ∀ Y, swapFn ((P0, P1) :: rest) Y =
        if Y = P0 then P1 else if Y = P1 then P0 else swapFn rest Y := fun _ => rfl
    rw [hunf X]
    by_cases hx0 : X = P0
    · rw [if_pos hx0, hunf P1, if_neg (Ne.symm h01), if_pos rfl, hx0]
    · rw [if_neg hx0]
      by_cases hx1 : X = P1
      · rw [if_pos hx1, hunf P0, if_pos rfl, hx1]
      · rw [if_neg hx1, hunf (swapFn rest X)]
        rcases swapFn_mem X rest with h | h
        · rw [if_neg (fun hh => hx0 (h.symm.trans hh)),
            if_neg (fun hh => hx1 (h.symm.trans hh))]
          exact ih X hrest
        · rw [if_neg (by intro hh; exact h0r (hh ▸ h)), if_neg (by intro hh; exact h1r (hh ▸ h))]
          exact ih X hrest

theorem testBit_applyPairs (L : List ((Nat × Nat) × (Nat × Nat))) :
    ∀ buf, (∀ x ∈ buf, x < 256) →
    (∀ P ∈ posOf L, P.1 < buf.length ∧ P.2 < 8) →
    (posOf L).Nodup →
    ∀ X : Nat × Nat, X.2 < 8 →
    ((applyPairs buf L).getD X.1 0).testBit X.2 =
      (buf.getD (swapFn L X).1 0).testBit (swapFn L X).2 := by
  induction L with
  | nil => intro buf _ _ _ X _; rfl
  | cons R rest ih =>
    intro buf hb hg hnd X hX
    obtain ⟨P0, P1⟩ := R
    have hg0 := hg P0 (by rw [posOf]; simp)
    have hg1 := hg P1 (by rw [posOf]; simp)
    rw [posOf] at hnd
    have h01 : P0 ≠ P1 := by
      have := (List.nodup_cons.mp hnd).1
      intro hh; exact this (by simp [hh])
    have h0r : P0 ∉ posOf rest := by
      have := (List.nodup_cons.mp hnd).1
      intro hh; exact this (by simp [hh])
    have h1r : P1 ∉ posOf rest := (List.nodup_cons.mp (List.nodup_cons.mp hnd).2).1
    have hrest : (posOf rest).Nodup := (List.nodup_cons.mp (List.nodup_cons.mp hnd).2).2
    rw [applyPairs]
    have hbuf1 : ∀ x ∈ doSwap buf P0 P1, x < 256 := mem_doSwap_lt buf P0 P1 hg0.2 hg1.2 hb
    have hlen1 : (doSwap buf P0 P1).length = buf.length := length_doSwap buf P0 P1
    rw [ih (doSwap buf P0 P1) hbuf1
        (fun P hP => by rw [hlen1]; exact hg P (by rw [posOf]; simp [hP])) hrest X hX]
    obtain ⟨p0, b0⟩ := P0
    obtain ⟨p1, b1⟩ := P1
    have hY2 : (swapFn rest X).2 < 8 := by
      rcases swapFn_mem X rest with h | h
      · rw [h]; exact hX
      · exact (hg _ (by rw [posOf]; simp [h])).2
    rw [testBit_doSwap buf p0 b0 p1 b1 _ _ hg0.1 hg1.1 hg0.2 hg1.2
        (by intro hh; exact h01 hh) hY2]
    rw [swapFn]
    by_cases hx0 : X = (p0, b0)
    · rw [if_pos hx0]
      have hXr : swapFn rest X = X := swapFn_eq_of_not_mem X rest (hx0 ▸ h0r)
      rw [hXr, hx0]
      rw [if_pos ⟨rfl, rfl⟩]
    · rw [if_neg hx0]
      by_cases hx1 : X = (p1, b1)
      · rw [if_pos hx1]
        have hXr : swapFn rest X = X := swapFn_eq_of_not_mem X rest (hx1 ▸ h1r)
        rw [hXr, hx1]
        have hne01 : ¬(p1 = p0 ∧ b1 = b0) := by
          rintro ⟨h1, h2⟩; exact h01 (by rw [h1, h2])
        rw [if_neg hne01, if_pos ⟨rfl, rfl⟩]
      · have hY0 : ¬((swapFn rest X).1 = p0 ∧ (swapFn rest X).2 = b0) := by
          rintro ⟨ha, hc⟩
          rcases swapFn_mem X rest with h | h
          · rw [h] at ha hc
            exact hx0 (Prod.ext ha hc)
          · exact h0r (by
              have : swapFn rest X = (p0, b0) := Prod.ext ha hc
              rw [this] at h; exact h)
        have hY1 : ¬((swapFn rest X).1 = p1 ∧ (swapFn rest X).2 = b1) := by
          rintro ⟨ha, hc⟩
          rcases swapFn_mem X rest with h | h
          · rw [h] at ha hc
            exact hx1 (Prod.ext ha hc)
          · exact h1r (by
              have : swapFn rest X = (p1, b1) := Prod.ext ha hc
              rw [this] at h; exact h)
        rw [if_neg hY0, if_neg hY1, if_neg hx1]

theorem applyPairs_invol (L : List ((Nat × Nat) × (Nat × Nat))) (buf : List Nat)
    (hb : ∀ x ∈ buf, x < 256)
    (hg : ∀ P ∈ posOf L, P.1 < buf.length ∧ P.2 < 8)
    (hnd : (posOf L).Nodup) :
    applyPairs (applyPairs buf L) L = buf := by
  have hlen : (applyPairs buf L).length = buf.length := length_applyPairs L buf
  have hbits : ∀ P ∈ posOf L, P.2 < 8 := fun P hP => (hg P hP).2
  have hb1 : ∀ x ∈ applyPairs buf L, x < 256 := mem_applyPairs_lt L hbits buf hb
  apply buffer_ext
  · rw [length_applyPairs, hlen]
  · exact mem_applyPairs_lt L hbits _ hb1
  · exact hb
  · intro p hp c hc
    rw [length_applyPairs, hlen] at hp
    have hg1 : ∀ P ∈ posOf L, P.1 < (applyPairs buf L).length ∧ P.2 < 8 := by
      intro P hP; rw [hlen]; exact hg P hP
    rw [testBit_applyPairs L (applyPairs buf L) hb1 hg1 hnd (p, c) hc]
    rw [testBit_applyPairs L buf hb hg hnd (swapFn L (p, c)) (by
      rcases swapFn_mem (p, c) L with h | h
      · rw [h]; exact hc
      · exact (hg _ h).2)]
    rw [swapFn_invol (p, c) L hnd]

/-! The scrambling table is a permutation of the base table. -/

theorem cons_eraseIdx_perm (l : List Nat) (x : Nat) (h : x < l.length) :
    List.Perm (l.getD x 0 :: l.eraseIdx x) l := by
  rw [getD_lt l h, List.eraseIdx_eq_take_drop_succ]
  have hsplit : l = l.take x ++ l[x] :: l.drop (x + 1) := by
    conv_lhs => rw [← List.take_append_drop x l]
    rw [List.drop_eq_getElem_cons h]
  conv_rhs => rw [hsplit]
  exact (List.perm_middle).symm

theorem pickLoop_perm (k : Nat) :
    ∀ (fuel rem : Nat) (s : Nat) (base : List Nat), fuel = base.length → rem = base.length →
    List.Perm (pickLoop k fuel rem s base).1 base := by
  intro fuel
  induction fuel with
  | zero =>
    intro rem s base h _
    have hb : base = [] := List.eq_nil_of_length_eq_zero h.symm
    rw [hb]; rfl
  | succ n ih =>
    intro rem s base h hr
    have hstep : (pickLoop k (n + 1) rem s base).1 =
        base.getD (((lcg k s >>> 16) &&& 0x7fff) % rem) 0 ::
          (pickLoop k n (rem - 1) (lcg k s)
            (base.eraseIdx (((lcg k s >>> 16) &&& 0x7fff) % rem))).1 := rfl
    rw [hstep]
    have hlen : 0 < base.length := by omega
    have hx : ((lcg k s >>> 16) &&& 0x7fff) % rem < base.length := by
      have := Nat.mod_lt ((lcg k s >>> 16) &&& 0x7fff) (y := rem) (by omega)
      omega
    have herase : n = (base.eraseIdx (((lcg k s >>> 16) &&& 0x7fff) % rem)).length := by
      rw [List.length_eraseIdx_of_lt hx]; omega
    have herase2 : rem - 1 = (base.eraseIdx (((lcg k s >>> 16) &&& 0x7fff) % rem)).length := by
      rw [List.length_eraseIdx_of_lt hx]; omega
    refine List.Perm.trans ?_ (cons_eraseIdx_perm base _ hx)
    exact List.Perm.cons _ (ih (rem - 1) (lcg k s) _ herase herase2)

theorem baseTable_eq_range (T : Nat) (h : T ≤ 65536) : baseTable T = List.range T := by
  unfold baseTable
  rw [List.map_congr_left (fun x hx => Nat.mod_eq_of_lt
    (Nat.lt_of_lt_of_le (List.mem_range.mp hx) h))]
  exact List.map_id _

theorem scr_nodup (k T s : Nat) (h : T ≤ 65536) :
    (pickLoop k T T s (baseTable T)).1.Nodup ∧ ∀ v ∈ (pickLoop k T T s (baseTable T)).1, v < T := by
  rw [baseTable_eq_range T h]
  have hperm := pickLoop_perm k T T s (List.range T)
    (by rw [List.length_range]) (by rw [List.length_range])
  constructor
  · exact hperm.nodup_iff.mpr (List.nodup_range _)
  · intro v hv
    exact List.mem_range.mp (hperm.mem_iff.mp hv)

/-! Positions generated by a slice are distinct and land inside the slice. -/

theorem posOf_toPairs_sublist (sb : Nat) :
    (l : List Nat) → (posOf (toPairs sb l)).Sublist (l.map (mkAbs sb))
  | [] => by
    rw [show toPairs sb [] = [] from rfl]
    exact List.nil_sublist _
  | [a] => by
    rw [show toPairs sb [a] = [] from rfl]
    exact List.nil_sublist _
  | a :: b :: r => by
    rw [show toPairs sb (a :: b :: r) = (mkAbs sb a, mkAbs sb b) :: toPairs sb r from rfl]
    rw [posOf, List.map_cons, List.map_cons]
    exact ((posOf_toPairs_sublist sb r).cons₂ (mkAbs sb b)).cons₂ (mkAbs sb a)

theorem mkAbs_fst (sb v : Nat) (hv : v < 2048) : (mkAbs sb v).1 = sb + v / 8 := by
  show sb + (v >>> 3) % 256 = sb + v / 8
  have h1 : v >>> 3 = v / 8 := by
    rw [Nat.shiftRight_eq_div_pow]
  rw [h1, Nat.mod_eq_of_lt (by omega)]

theorem mkAbs_snd (sb v : Nat) : (mkAbs sb v).2 = v % 8 := by
  show v &&& 7 = v % 8
  have h : (7 : Nat) = 2 ^ 3 - 1 := by norm_num
  have h8 : (8 : Nat) = 2 ^ 3 := by norm_num
  rw [h, Nat.and_pow_two_sub_one_eq_mod, h8]

theorem mkAbs_inj (sb : Nat) (v w : Nat) (hv : v < 2048) (hw : w < 2048)
    (h : mkAbs sb v = mkAbs sb w) : v = w := by
  have h1 := congrArg Prod.fst h
  have h2 := congrArg Prod.snd h
  rw [mkAbs_fst sb v hv, mkAbs_fst sb w hw] at h1
  rw [mkAbs_snd, mkAbs_snd] at h2
  omega

theorem mkAbs_range (sb v slice : Nat) (hs : slice ≤ 256) (hv : v < slice * 8) :
    sb ≤ (mkAbs sb v).1 ∧ (mkAbs sb v).1 < sb + slice ∧ (mkAbs sb v).2 < 8 := by
  have hv2 : v < 2048 := by omega
  rw [mkAbs_fst sb v hv2, mkAbs_snd]
  refine ⟨by omega, by omega, by omega⟩

theorem slicePairs_good (k slice sb rem s : Nat) (hs : slice ≤ 256) :
    (posOf (slicePairs k slice sb rem s).1).Nodup ∧
    ∀ P ∈ posOf (slicePairs k slice sb rem s).1,
      sb ≤ P.1 ∧ P.1 < sb + slice ∧ P.2 < 8 := by
  have hrw : (slicePairs k slice sb rem s).1 =
      toPairs sb ((pickLoop k (slice * 8) (slice * 8) s (baseTable (slice * 8))).1.take
        (min (slice * 8) (rem * 8 % 4294967296))) := rfl
  rw [hrw]
  have hT : slice * 8 ≤ 65536 := by omega
  obtain ⟨hnd, hmem⟩ := scr_nodup k (slice * 8) s hT
  set scr := (pickLoop k (slice * 8) (slice * 8) s (baseTable (slice * 8))).1 with hscr
  set l := scr.take (min (slice * 8) (rem * 8 % 4294967296)) with hl
  have hsub : l.Sublist scr := List.take_sublist _ _
  have hlnd : l.Nodup := hsub.nodup hnd
  have hlmem : ∀ v ∈ l, v < slice * 8 := fun v hv => hmem v (hsub.mem hv)
  have hmapnd : (l.map (mkAbs sb)).Nodup := by
    refine List.Nodup.map_on ?_ hlnd
    intro x hx y hy hxy
    exact mkAbs_inj sb x y (by have := hlmem x hx; omega) (by have := hlmem y hy; omega) hxy
  have hposub := posOf_toPairs_sublist sb l
  constructor
  · exact hposub.nodup hmapnd
  · intro P hP
    have : P ∈ l.map (mkAbs sb) := hposub.mem hP
    obtain ⟨v, hv, rfl⟩ := List.mem_map.mp this
    exact mkAbs_range sb v slice hs (hlmem v hv)

/-! The whole pass flattens to one swap list with distinct positions. -/

theorem sliceLoop_eq_applyPairs (k slice : Nat) :
    ∀ fuel sb rem buf s,
    (sliceLoop k slice fuel sb rem buf s).1 = applyPairs buf (flatPairs k slice fuel sb rem s) := by
  intro fuel
  induction fuel with
  | zero => intro sb rem buf s; rfl
  | succ n ih =>
    intro sb rem buf s
    have h1 : (sliceLoop k slice (n + 1) sb rem buf s).1 =
        (sliceLoop k slice n (sb + slice) (rem - slice)
          (applyPairs buf (slicePairs k slice sb rem s).1) (slicePairs k slice sb rem s).2).1 := rfl
    have h2 : flatPairs k slice (n + 1) sb rem s =
        (slicePairs k slice sb rem s).1 ++
          flatPairs k slice n (sb + slice) (rem - slice) (slicePairs k slice sb rem s).2 := rfl
    rw [h1, h2, applyPairs_append, ih]

theorem flatPairs_good (k slice : Nat) (hs : slice ≤ 256) :
    ∀ fuel sb rem s,
    (posOf (flatPairs k slice fuel sb rem s)).Nodup ∧
    ∀ P ∈ posOf (flatPairs k slice fuel sb rem s),
      sb ≤ P.1 ∧ P.1 < sb + fuel * slice ∧ P.2 < 8 := by
  intro fuel
  induction fuel with
  | zero =>
    intro sb rem s
    exact ⟨List.nodup_nil, fun P hP => absurd hP (List.not_mem_nil P)⟩
  | succ n ih =>
    intro sb rem s
    have h2 : flatPairs k slice (n + 1) sb rem s =
        (slicePairs k slice sb rem s).1 ++
          flatPairs k slice n (sb + slice) (rem - slice) (slicePairs k slice sb rem s).2 := rfl
    rw [h2, posOf_append]
    obtain ⟨hnd1, hg1⟩ := slicePairs_good k slice sb rem s hs
    obtain ⟨hnd2, hg2⟩ := ih (sb + slice) (rem - slice) (slicePairs k slice sb rem s).2
    constructor
    · refine List.Nodup.append hnd1 hnd2 ?_
      intro P hP1 hP2
      have := (hg1 P hP1).2.1
      have := (hg2 P hP2).1
      omega
    · intro P hP
      rcases List.mem_append.mp hP with h | h
      · obtain ⟨ha, hb2, hc⟩ := hg1 P h
        have hmul : slice ≤ (n + 1) * slice := Nat.le_mul_of_pos_left slice (by omega)
        exact ⟨ha, by omega, hc⟩
      · obtain ⟨ha, hb2, hc⟩ := hg2 P h
        have heq : sb + slice + n * slice = sb + (n + 1) * slice := by ring
        exact ⟨by omega, by omega, hc⟩

/-- Claim C4, amended: for every buffer, chunk size and initial PRNG state,
and every slice size up to 0x100 (both call sites use 0x100 and 0x80),
applying the bit-swap pass descramble_chunk twice with the same initial
state restores the original buffer, provided the buffer extends over the
whole slices the pass addresses (the code addresses the final slice in full
even when chunk_size is not a multiple of slice_size) and holds byte
values.  For slice sizes above 0x100 the uint8_t cast of the byte position
aliases distinct bit positions and the pass is not an involution (see the
counterexample). -/
theorem C4_bit_swap_self_inverse (buf : List Nat) (cs slice k s : Nat)
    (hs : slice ≤ 256)
    (hb : ∀ x ∈ buf, x < 256)
    (hcover : numSlices cs slice * slice ≤ buf.length) :
    (descramble_chunk (descramble_chunk buf cs (k, s) slice).1 cs (k, s) slice).1 = buf := by
  by_cases h0 : slice * 8 < 4
  · rw [descramble_chunk, if_pos h0, descramble_chunk, if_pos h0]
  · have hunf : ∀ b : List Nat, (descramble_chunk b cs (k, s) slice).1 =
        (sliceLoop k slice (numSlices cs slice) 0 cs b s).1 := by
      intro b; rw [descramble_chunk, if_neg h0]
    rw [hunf, hunf, sliceLoop_eq_applyPairs, sliceLoop_eq_applyPairs]
    obtain ⟨hnd, hg⟩ := flatPairs_good k slice hs (numSlices cs slice) 0 cs s
    exact applyPairs_invol _ buf hb
      (fun P hP => by
        obtain ⟨_, hlt, hbit⟩ := hg P hP
        exact ⟨by omega, hbit⟩) hnd

/-- Witness for C4 at the S6 scenario parameters: slice 0x80, 0x200 bytes
of data, state (0x3B9A73C9, 0x12345678). -/
theorem C4_bit_swap_self_inverse_witness :
    (0x80 ≤ 256 ∧ (∀ x ∈ s6buf, x < 256) ∧ numSlices 0x200 0x80 * 0x80 ≤ s6buf.length) ∧
    (descramble_chunk (descramble_chunk s6buf 0x200 (0x3b9a73c9, 0x12345678) 0x80).1 0x200
      (0x3b9a73c9, 0x12345678) 0x80).1 = s6buf := by
  refine ⟨⟨by norm_num, ?_, by norm_num [numSlices, s6buf]⟩, ?_⟩
  · intro x hx
    obtain ⟨i, _, rfl⟩ := List.mem_map.mp hx
    exact Nat.mod_lt _ (by norm_num)
  · refine C4_bit_swap_self_inverse s6buf 0x200 0x80 0x3b9a73c9 0x12345678 (by norm_num) ?_ ?_
    · intro x hx
      obtain ⟨i, _, rfl⟩ := List.mem_map.mp hx
      exact Nat.mod_lt _ (by norm_num)
    · norm_num [numSlices, s6buf]

set_option maxRecDepth 8000000 in
/-- Counterexample to claim C4 as stated: with slice size 0x101 (past the
0x100 limit of the uint8_t byte-position cast), chunk size 4 and initial
state (0x3B9A73C9, 403), applying descramble_chunk twice does not restore
the 257-byte buffer. -/
theorem C4_counterexample :
    ¬ ((descramble_chunk (descramble_chunk cexBuf 4 (0x3b9a73c9, 403) 0x101).1 4
      (0x3b9a73c9, 403) 0x101).1 = cexBuf) := by decide

/-! Claim C9: key XOR involutivity. -/

theorem decodeAux_invol (k : List Nat) : ∀ (a : List Nat) (i : Nat),
    decodeAux k (decodeAux k a i) i = a := by
  intro a
  induction a with
  | nil => intro i; rfl
  | cons x xs ih =>
    intro i
    rw [decodeAux, decodeAux, Nat.xor_cancel_right, ih]

/-- Claim C9: the PAK key-XOR unmask is an involution: for every byte
string and every 20-byte key, decoding twice restores the input. -/
theorem C9_decode_involution (a k : List Nat) (_hk : k.length = 20) :
    decode (decode a k) k = a := decodeAux_invol k a 0

/-- Witness for C9 at a concrete buffer and the key 0..19. -/
theorem C9_decode_involution_witness :
    (List.range 20).length = 20 ∧
    decode (decode [1, 2, 3, 200] (List.range 20)) (List.range 20) = [1, 2, 3, 200] :=
  ⟨by decide, C9_decode_involution [1, 2, 3, 200] (List.range 20) (by decide)⟩

/-! Claim C1: the S5 output-overrun scenario. -/

/-- Claim C1 evaluation at the failing input: on the S5 stream the opcode
machine writes 12 bytes into the 10-byte destination (opcode 6 copies its
whole run without checking dst against dst_max), then the loop exits and
unglaze returns success; it does not abort with a decompression error. -/
theorem C1_s5_unglaze_overrun :
    unglaze s5src 33 10 = .ok [65, 66, 67, 67, 68, 69, 70, 71, 72, 73, 74, 0] ∧
    ([65, 66, 67, 67, 68, 69, 70, 71, 72, 73, 74, 0] : List Nat).length = 12 := by
  constructor
  · decide
  · decide

/-! Claim C2: unknown opcodes are silently skipped. -/

/-- Counterexample to claim C2 as stated: a Glaze stream whose opcode table
decodes to [0x00, 0x01]; executing it does not stop with a fatal error on
the 0x00 opcode, but skips it and succeeds with output [65]. -/
theorem C2_counterexample :
    (build_code_table (c2src.drop 8) 6).2 = [0, 1] ∧ unglaze c2src 23 1 = .ok [65] := by
  constructor
  · decide
  · decide

/-- Claim C2, amended: an opcode byte outside the dispatch set 1..7 is
silently skipped: the switch has no default case, so the iteration consumes
only the opcode byte, emits nothing, and leaves the dict and length cursors
and the output unchanged; fatal errors arise only from the cursor
overrun checks. -/
theorem C2_unknown_opcode_skipped (src codeTable : List Nat)
    (maxCode maxDict maxLen dstLen fuel cp dp lp : Nat) (dst : List Nat)
    (hdst : dst.length < dstLen)
    (hdp : dp ≤ maxDict) (hlp : lp ≤ maxLen) (hcp : cp ≤ maxCode)
    (hop : codeTable.getD cp 0 ∉ ([1, 2, 3, 4, 5, 6, 7] : List Nat)) :
    execLoop src codeTable maxCode maxDict maxLen dstLen (fuel + 1) cp dp lp dst =
      execLoop src codeTable maxCode maxDict maxLen dstLen fuel (cp + 1) dp lp dst := by
  have h1 : codeTable.getD cp 0 ≠ 1 := fun h => hop (by rw [h]; simp)
  have h2 : codeTable.getD cp 0 ≠ 2 := fun h => hop (by rw [h]; simp)
  have h3 : codeTable.getD cp 0 ≠ 3 := fun h => hop (by rw [h]; simp)
  have h4 : codeTable.getD cp 0 ≠ 4 := fun h => hop (by rw [h]; simp)
  have h5 : codeTable.getD cp 0 ≠ 5 := fun h => hop (by rw [h]; simp)
  have h6 : codeTable.getD cp 0 ≠ 6 := fun h => hop (by rw [h]; simp)
  have h7 : codeTable.getD cp 0 ≠ 7 := fun h => hop (by rw [h]; simp)
  rw [execLoop]
  rw [if_neg (by omega), if_neg (by push_neg; exact ⟨by omega, by omega, by omega⟩)]
  rw [if_neg h1, if_neg h2, if_neg h3, if_neg h4, if_neg h5, if_neg h6, if_neg h7]

/-- Witness for the amended C2 at the 0x00 opcode of the counterexample
stream state. -/
theorem C2_unknown_opcode_skipped_witness :
    (([0, 1] : List Nat).getD 0 0 ∉ ([1, 2, 3, 4, 5, 6, 7] : List Nat)) ∧
    execLoop c2src [0, 1] 2 19 23 1 5 0 18 23 [] =
      execLoop c2src [0, 1] 2 19 23 1 4 1 18 23 [] :=
  ⟨by decide,
    C2_unknown_opcode_skipped c2src [0, 1] 2 19 23 1 4 0 18 23 []
      (by decide) (by decide) (by decide) (by decide) (by decide)⟩

/-! Claim C3: PAK layout autodetect. -/

theorem detectLoop_spec (bytes : List Nat) :
    ∀ (fuel i last0 last1 s0 s1 : Nat),
    detectLoop bytes fuel i last0 last1 s0 s1 =
      (s0 + listDeltaSum last0 ((List.range' i fuel).map (val32 bytes)),
       s1 + listDeltaSum last1 ((List.range' i fuel).map (val64hi bytes))) := by
  intro fuel
  induction fuel with
  | zero =>
    intro i last0 last1 s0 s1
    rw [detectLoop]
    simp [listDeltaSum]
  | succ n ih =>
    intro i last0 last1 s0 s1
    rw [detectLoop, List.range'_succ, List.map_cons, List.map_cons,
      listDeltaSum, listDeltaSum, ih]
    simp only [Prod.mk.injEq]
    omega

/-- Claim C3, amended: the layout autodetect sums the absolute deltas of
the 32-bit data_offset values for the 160-byte layout, and of the HIGH 32
bits of the 64-bit data_offset for the 168-byte layout, over the first
min(entry_count, 64) entries; it selects the 32-bit stride exactly when the
first sum is strictly smaller.  On the zero-padded S1 input the sums are
(0x200, 0), so the detector selects the 64-bit stride, not the 32-bit one
as the scenario claims. -/
theorem C3_autodetect (bytes : List Nat) (n : Nat) :
    (detectPak32 bytes n = true ↔
      listDeltaSum 0 (vals32 bytes n) < listDeltaSum 0 (vals64hi bytes n)) ∧
    detectPak32 s1bytes 2 = false := by
  constructor
  · unfold detectPak32 vals32 vals64hi
    rw [List.range_eq_range', detectLoop_spec]
    simp
  · decide

/-- Counterexample to claim C3 as stated: on the zero-padded S1 input the
candidate sums are 0x200 (32-bit layout) and 0 (64-bit layout high words),
so the detector selects the 64-bit stride. -/
theorem C3_counterexample :
    detectLoop s1bytes 2 0 0 0 0 0 = (0x200, 0) ∧ detectPak32 s1bytes 2 = false := by
  constructor
  · decide
  · decide

/-! Claim C6: EOF handling in opcode-table recovery. -/

theorem or_eofv_mod256 (a : Nat) : (a ||| EOFv) % 256 = 255 := by
  have h1 : (a ||| EOFv) &&& (2 ^ 8 - 1) = (a ||| EOFv) % 256 := by
    rw [Nat.and_pow_two_sub_one_eq_mod]
  rw [← h1]
  apply Nat.eq_of_testBit_eq
  intro i
  rw [Nat.testBit_and, Nat.testBit_or]
  have hE : (EOFv : Nat) = 2 ^ 32 - 1 := by norm_num [EOFv]
  have h255 : (255 : Nat) = 2 ^ 8 - 1 := by norm_num
  rw [hE, h255]
  simp only [Nat.testBit_two_pow_sub_one]
  by_cases hi : i < 8
  · simp [hi, (by omega : i < 32)]
  · simp [hi]

/-- Claim C6, amended: in one step of opcode-table recovery, EOF at the
opcode's first bit or during the leading zero-run truncates decoding with
no byte emitted (decodeOp yields none and the emission loop stops), but EOF
while reading the trailing value bits emits the byte 0xFF (the value bits
come back as the 32-bit EOF sentinel, which the uint8 cast folds to 0xFF)
and decoding truncates only at the next index. -/
theorem C6_eof_handling :
    (∀ ctx ctx2, getbits ctx 1 = (EOFv, ctx2) → decodeOp ctx = (none, ctx2)) ∧
    (∀ ctx r cl c ctxz, getbits ctx 1 = (0, r) → zeroRun 8 0 0 r = (cl, c, ctxz) →
      c = EOFv → decodeOp ctx = (none, ctxz)) ∧
    (∀ ctx r cl c ctxz v, getbits ctx 1 = (0, r) → zeroRun 8 0 0 r = (cl, c, ctxz) →
      c ≠ EOFv → cl < 8 → getbits ctxz cl = (EOFv, v) →
      decodeOp ctx = (some 0xff, v)) ∧
    (∀ ctx ctx2 n, (decodeOp ctx).1 = none → decodeOp ctx = (none, ctx2) →
      buildLoop ctx (n + 1) = []) := by
  refine ⟨?_, ?_, ?_, ?_⟩
  · intro ctx ctx2 h
    rw [decodeOp, h]
    norm_num [EOFv]
  · intro ctx r cl c ctxz h hz hc
    rw [decodeOp, h]
    norm_num [EOFv]
    rw [hz, hc]
    norm_num [EOFv]
  · intro ctx r cl c ctxz v h hz hc hcl hv
    rw [decodeOp, h]
    norm_num [EOFv]
    rw [hz]
    simp only [hc, if_false, hcl, if_true, hv]
    rw [or_eofv_mod256, if_neg (show ¬(c = 4294967295) from by simpa [EOFv] using hc)]
  · intro ctx ctx2 n h1 h2
    rw [buildLoop, h2]

/-- Witness for the amended C6: a one-byte bitstream 0x02 whose single
opcode hits EOF in the value bits and comes out as 0xFF. -/
theorem C6_eof_handling_witness :
    (getbits ⟨[2], 1, 0, 0, 0⟩ 1 = (0, ⟨[2], 1, 1, 2, 0x40⟩) ∧
      zeroRun 8 0 0 ⟨[2], 1, 1, 2, 0x40⟩ = (6, 1, ⟨[2], 1, 1, 2, 1⟩) ∧
      getbits ⟨[2], 1, 1, 2, 1⟩ 6 = (EOFv, ⟨[2], 1, 1, 2, 0⟩)) ∧
    decodeOp ⟨[2], 1, 0, 0, 0⟩ = (some 0xff, ⟨[2], 1, 1, 2, 0⟩) :=
  ⟨⟨by decide, by decide, by decide⟩,
    C6_eof_handling.2.2.1 ⟨[2], 1, 0, 0, 0⟩ ⟨[2], 1, 1, 2, 0x40⟩ 6 1 ⟨[2], 1, 1, 2, 1⟩
      ⟨[2], 1, 1, 2, 0⟩ (by decide) (by decide) (by decide) (by decide) (by decide)⟩

/-- Counterexample to claim C6 as stated: the bitstream [0, 0, 0, 2, 0x02]
declares two opcodes; EOF strikes while reading the value bits of the
first, yet a byte (0xFF) is emitted for it before decoding truncates. -/
theorem C6_counterexample : (build_code_table [0, 0, 0, 2, 0x02] 5).2 = [0xff] := by decide

/-! Claims C7, C8, C5: descrambler2. -/

theorem scanFF_spec (buf : List Nat) : ∀ start,
    (buf.getD (scanFF buf start) 0 = 0xff ∨ scanFF buf start = 0) ∧
    scanFF buf start ≤ start ∧
    ∀ j, scanFF buf start < j → j ≤ start → buf.getD j 0 ≠ 0xff := by
  intro start
  induction start with
  | zero =>
    exact ⟨Or.inr rfl, Nat.le_refl 0, fun j hj hj2 => absurd (Nat.lt_of_lt_of_le hj hj2)
      (Nat.lt_irrefl _)⟩
  | succ n ih =>
    rw [scanFF]
    by_cases h : buf.getD (n + 1) 0 = 0xff
    · rw [if_pos h]
      exact ⟨Or.inl h, Nat.le_refl _, fun j hj hj2 => absurd (Nat.lt_of_lt_of_le hj hj2)
        (Nat.lt_irrefl _)⟩
    · rw [if_neg h]
      obtain ⟨ha, hb, hc⟩ := ih
      refine ⟨ha, by omega, ?_⟩
      intro j hj hj2
      rcases Nat.lt_or_ge j (n + 1) with hlt | hge
      · exact hc j hj (by omega)
      · have hj1 : j = n + 1 := by omega
        rw [hj1]; exact h

theorem xorLoop_no_switch (k : Nat) (lengths : List Nat) :
    ∀ (fuel pos s proc : Nat) (buf table : List Nat),
    proc + fuel < lengths.getD 0 0 →
    (xorLoop k lengths fuel pos s table 0 0 proc buf).2 = table := by
  intro fuel
  induction fuel with
  | zero => intro pos s proc buf table _; rfl
  | succ n ih =>
    intro pos s proc buf table h
    rw [xorLoop]
    rw [if_neg (by omega)]
    exact ih (pos + 1) (lcg k s) (proc + 1) _ table (by omega)

theorem descrambler2_past_guards (buf : List Nat) (seeds : seed_data)
    (h4 : buf.length % 4 = 0) (h16 : 16 ≤ buf.length)
    (he4 : 4 ≤ scanFF buf (buf.length - 13))
    (hff : buf.getD (scanFF buf (buf.length - 13)) 0 = 0xff) :
    descrambler2 buf seeds =
      (if (checksumLoop ((scanFF buf (buf.length - 13) &&& 0xfffffffc) / 4) 0 0 0
            ((xorLoop ((getbe32 buf (buf.length - 4) + SEED_CONSTANT) % 4294967296)
              seeds.length (scanFF buf (buf.length - 13)) 0 (seeds.table.getD 0 0)
              seeds.table 0 0 0 buf).1.set (scanFF buf (buf.length - 13)) 0)).1 ≠
          getbe32 buf (buf.length - 8) ∨
          (checksumLoop ((scanFF buf (buf.length - 13) &&& 0xfffffffc) / 4) 0 0 0
            ((xorLoop ((getbe32 buf (buf.length - 4) + SEED_CONSTANT) % 4294967296)
              seeds.length (scanFF buf (buf.length - 13)) 0 (seeds.table.getD 0 0)
              seeds.table 0 0 0 buf).1.set (scanFF buf (buf.length - 13)) 0)).2 ≠
          getbe32 buf (buf.length - 12)
      then (some .checksumErr,
        (xorLoop ((getbe32 buf (buf.length - 4) + SEED_CONSTANT) % 4294967296)
          seeds.length (scanFF buf (buf.length - 13)) 0 (seeds.table.getD 0 0)
          seeds.table 0 0 0 buf).1.set (scanFF buf (buf.length - 13)) 0,
        { seeds with table := (xorLoop ((getbe32 buf (buf.length - 4) + SEED_CONSTANT) %
            4294967296) seeds.length (scanFF buf (buf.length - 13)) 0
            (seeds.table.getD 0 0) seeds.table 0 0 0 buf).2 })
      else (none,
        (descramble_chunk
          ((xorLoop ((getbe32 buf (buf.length - 4) + SEED_CONSTANT) % 4294967296)
            seeds.length (scanFF buf (buf.length - 13)) 0 (seeds.table.getD 0 0)
            seeds.table 0 0 0 buf).1.set (scanFF buf (buf.length - 13)) 0)
          (min (scanFF buf (buf.length - 13) &&& 0xfffffffc) 0x800)
          (SEED_CONSTANT, seeds.main.getD 2 0) 0x80).1,
        { seeds with table := (xorLoop ((getbe32 buf (buf.length - 4) + SEED_CONSTANT) %
            4294967296) seeds.length (scanFF buf (buf.length - 13)) 0
            (seeds.table.getD 0 0) seeds.table 0 0 0 buf).2 })) := by
  rw [descrambler2]
  rw [if_neg (by push_neg; omega)]
  simp only []
  rw [if_neg (by push_neg; exact ⟨by omega, by simpa using hff⟩)]

/-- Claim C8: descrambler2 locates the end marker by scanning backwards
from index size-13 for the first 0xFF byte, and fails with MarkerNotFound
exactly when no 0xFF byte exists at an index between 4 and size-13; the S4
scenario (no 0xFF in the scanned tail region or anywhere below) is an
instance (see the witness). -/
theorem C8_marker_scan (buf : List Nat) (seeds : seed_data)
    (h4 : buf.length % 4 = 0) (h16 : 16 ≤ buf.length) :
    ((descrambler2 buf seeds).1 = some .markerErr ↔
      ∀ j, 4 ≤ j → j ≤ buf.length - 13 → buf.getD j 0 ≠ 0xff) := by
  obtain ⟨hm, hle, habove⟩ := scanFF_spec buf (buf.length - 13)
  by_cases hcond : scanFF buf (buf.length - 13) < 4 ∨
      buf.getD (scanFF buf (buf.length - 13)) 0 ≠ 0xff
  · have h1 : (descrambler2 buf seeds).1 = some .markerErr := by
      rw [descrambler2, if_neg (by push_neg; omega)]
      simp only []
      rw [if_pos hcond]
    rw [h1]
    constructor
    · intro _ j hj4 hjle hjff
      have hje : j ≤ scanFF buf (buf.length - 13) := by
        by_contra hgt
        exact habove j (by omega) hjle hjff
      rcases hcond with hlt | hne
      · omega
      · rcases hm with hff | h0
        · exact hne hff
        · omega
    · intro _; rfl
  · push_neg at hcond
    obtain ⟨he4, hff⟩ := hcond
    rw [descrambler2_past_guards buf seeds h4 h16 he4 hff]
    constructor
    · intro h
      exfalso
      rw [apply_ite Prod.fst] at h
      split at h
      · simp at h
      · simp at h
    · intro hforall
      exact absurd hff (hforall _ he4 hle)

/-- Witness for C8: a 20-byte, all-zero buffer (the S4 family: no 0xFF
anywhere, in particular not in the scanned tail) yields MarkerNotFound. -/
theorem C8_marker_scan_witness :
    (bufB.length % 4 = 0 ∧ 16 ≤ bufB.length) ∧
    (descrambler2 bufB seedsA).1 = some .markerErr :=
  ⟨⟨by decide, by decide⟩,
    (C8_marker_scan bufB seedsA (by decide) (by decide)).mpr (by decide)⟩

theorem xorLoop_length (k : Nat) (lengths : List Nat) :
    ∀ (fuel pos s idx fudge proc : Nat) (table buf : List Nat),
    (xorLoop k lengths fuel pos s table idx fudge proc buf).1.length = buf.length := by
  intro fuel
  induction fuel with
  | zero => intro pos s idx fudge proc table buf; rfl
  | succ n ih =>
    intro pos s idx fudge proc table buf
    rw [xorLoop]
    by_cases h : proc + 1 ≥ lengths.getD idx 0 + fudge
    · rw [if_pos h, ih]
      exact List.length_set buf pos _
    · rw [if_neg h, ih]
      exact List.length_set buf pos _

theorem checksumLoop_spec (buf : List Nat) : ∀ (fuel i c0 c1 : Nat),
    checksumLoop fuel i c0 c1 buf =
      (((List.range' i fuel 4).map (getbe32 buf)).foldl
        (fun a w => a ^^^ (w ^^^ 0xffffffff)) c0,
       ((List.range' i fuel 4).map (getbe32 buf)).foldl
        (fun a w => (a + (4294967296 - w)) % 4294967296) c1) := by
  intro fuel
  induction fuel with
  | zero => intro i c0 c1; rfl
  | succ n ih =>
    intro i c0 c1
    have hr : List.range' i (n + 1) 4 = i :: List.range' (i + 4) n 4 := rfl
    rw [checksumLoop, hr, List.map_cons, List.foldl_cons, List.foldl_cons, ih]

/-- Claim C7: after the per-byte XOR pass, descrambler2 overwrites the
marker byte with 0, takes n as end AND NOT 3, computes c0 as the running
XOR of the uint32 complements and c1 as the running wrapping subtraction
over the big-endian words of the first n bytes, and fails with
ChecksumMismatch exactly when the computed pair differs from the stored
pair read at size-8 and size-12. -/
theorem C7_checksum (buf : List Nat) (seeds : seed_data)
    (h4 : buf.length % 4 = 0) (h16 : 16 ≤ buf.length)
    (he4 : 4 ≤ scanFF buf (buf.length - 13))
    (hff : buf.getD (scanFF buf (buf.length - 13)) 0 = 0xff) :
    ((descrambler2 buf seeds).1 = some .checksumErr ↔
      ¬(specC0 (beWords
          ((xorLoop ((getbe32 buf (buf.length - 4) + SEED_CONSTANT) % 4294967296)
            seeds.length (scanFF buf (buf.length - 13)) 0 (seeds.table.getD 0 0)
            seeds.table 0 0 0 buf).1.set (scanFF buf (buf.length - 13)) 0)
          (scanFF buf (buf.length - 13) &&& 0xfffffffc)) =
        getbe32 buf (buf.length - 8) ∧
        specC1 (beWords
          ((xorLoop ((getbe32 buf (buf.length - 4) + SEED_CONSTANT) % 4294967296)
            seeds.length (scanFF buf (buf.length - 13)) 0 (seeds.table.getD 0 0)
            seeds.table 0 0 0 buf).1.set (scanFF buf (buf.length - 13)) 0)
          (scanFF buf (buf.length - 13) &&& 0xfffffffc)) =
        getbe32 buf (buf.length - 12))) ∧
    ((xorLoop ((getbe32 buf (buf.length - 4) + SEED_CONSTANT) % 4294967296)
      seeds.length (scanFF buf (buf.length - 13)) 0 (seeds.table.getD 0 0)
      seeds.table 0 0 0 buf).1.set (scanFF buf (buf.length - 13)) 0).getD
        (scanFF buf (buf.length - 13)) 0 = 0 := by
  obtain ⟨hm, hle, habove⟩ := scanFF_spec buf (buf.length - 13)
  have hcs : ∀ (b2 : List Nat) (n : Nat), checksumLoop (n / 4) 0 0 0 b2 =
      (specC0 (beWords b2 n), specC1 (beWords b2 n)) := by
    intro b2 n
    rw [checksumLoop_spec]
    rfl
  constructor
  · rw [descrambler2_past_guards buf seeds h4 h16 he4 hff, apply_ite Prod.fst, hcs]
    by_cases hc : specC0 (beWords
        ((xorLoop ((getbe32 buf (buf.length - 4) + SEED_CONSTANT) % 4294967296)
          seeds.length (scanFF buf (buf.length - 13)) 0 (seeds.table.getD 0 0)
          seeds.table 0 0 0 buf).1.set (scanFF buf (buf.length - 13)) 0)
        (scanFF buf (buf.length - 13) &&& 0xfffffffc)) ≠
        getbe32 buf (buf.length - 8) ∨
        specC1 (beWords
          ((xorLoop ((getbe32 buf (buf.length - 4) + SEED_CONSTANT) % 4294967296)
            seeds.length (scanFF buf (buf.length - 13)) 0 (seeds.table.getD 0 0)
            seeds.table 0 0 0 buf).1.set (scanFF buf (buf.length - 13)) 0)
          (scanFF buf (buf.length - 13) &&& 0xfffffffc)) ≠
        getbe32 buf (buf.length - 12)
    · rw [if_pos hc]
      constructor
      · intro _
        rcases hc with hc | hc
        · intro hand; exact hc hand.1
        · intro hand; exact hc hand.2
      · intro _; rfl
    · rw [if_neg hc]
      push_neg at hc
      constructor
      · intro h; exact Option.noConfusion h
      · intro hn; exact absurd hc hn
  · apply getD_set_self
    rw [xorLoop_length]
    omega

/-- Witness for C7 at the 20-byte marker-at-7 input: the stored pair is
(0, 0), the computed pair differs, and the call fails with
ChecksumMismatch. -/
theorem C7_checksum_witness :
    (bufA.length % 4 = 0 ∧ 16 ≤ bufA.length ∧ 4 ≤ scanFF bufA (bufA.length - 13) ∧
      bufA.getD (scanFF bufA (bufA.length - 13)) 0 = 0xff) ∧
    (descrambler2 bufA seedsA).1 = some .checksumErr :=
  ⟨⟨by decide, by decide, by decide, by decide⟩,
    (C7_checksum bufA seedsA (by decide) (by decide) (by decide) (by decide)).1.mpr
      (by decide)⟩

/-- Counterexample to claim C5 as stated: descrambler2 stores an evolved
PRNG state into the caller's seeds.table on the very first byte when the
first length threshold is 1, so the seed structure does not hold its
pre-call values after the call. -/
theorem C5_counterexample : ((descrambler2 bufA seedsA).2.2).table ≠ seedsA.table := by decide

theorem descrambler2_seeds_shape (buf : List Nat) (seeds : seed_data) :
    ∃ t, (descrambler2 buf seeds).2.2 = { seeds with table := t } := by
  by_cases h1 : buf.length % 4 ≠ 0 ∨ buf.length < 16
  · rw [descrambler2, if_pos h1]
    exact ⟨seeds.table, rfl⟩
  · push_neg at h1
    by_cases h2 : scanFF buf (buf.length - 13) < 4 ∨
        buf.getD (scanFF buf (buf.length - 13)) 0 ≠ 0xff
    · rw [descrambler2, if_neg (by push_neg; omega)]
      simp only []
      rw [if_pos h2]
      exact ⟨seeds.table, rfl⟩
    · push_neg at h2
      rw [descrambler2_past_guards buf seeds h1.1 (by omega) h2.1 h2.2]
      rw [apply_ite (fun t : Option d2_error × List Nat × seed_data => t.2.2)]
      split
      · exact ⟨_, rfl⟩
      · exact ⟨_, rfl⟩

/-- Claim C5, amended: a descrambler2 call leaves seeds.main, seeds.length
and seeds.fence unchanged, but seeds.table is used as mutable working
state: whenever a seed switch fires, its entries are overwritten with
evolved PRNG states (see the counterexample); the whole structure survives
only when no switch can fire, in particular when the marker index is below
the first length threshold. -/
theorem C5_no_persistent_state :
    (∀ (buf : List Nat) (seeds : seed_data),
      ((descrambler2 buf seeds).2.2).main = seeds.main ∧
      ((descrambler2 buf seeds).2.2).length = seeds.length ∧
      ((descrambler2 buf seeds).2.2).fence = seeds.fence) ∧
    (∀ (buf : List Nat) (seeds : seed_data),
      buf.length % 4 = 0 → 16 ≤ buf.length →
      4 ≤ scanFF buf (buf.length - 13) →
      buf.getD (scanFF buf (buf.length - 13)) 0 = 0xff →
      scanFF buf (buf.length - 13) < seeds.length.getD 0 0 →
      ((descrambler2 buf seeds).2.2).table = seeds.table) := by
  constructor
  · intro buf seeds
    obtain ⟨t, ht⟩ := descrambler2_seeds_shape buf seeds
    rw [ht]
    exact ⟨rfl, rfl, rfl⟩
  · intro buf seeds h4 h16 he4 hff hnoswitch
    rw [descrambler2_past_guards buf seeds h4 h16 he4 hff]
    rw [apply_ite (fun t : Option d2_error × List Nat × seed_data => t.2.2.table)]
    have hns := xorLoop_no_switch ((getbe32 buf (buf.length - 4) + SEED_CONSTANT) % 4294967296)
      seeds.length (scanFF buf (buf.length - 13)) 0 (seeds.table.getD 0 0) 0 buf seeds.table
      (by omega)
    split
    · exact hns
    · exact hns

/-- Witness for the amended C5: on the 20-byte marker-at-7 input with first
length threshold 100, no switch fires and the table survives unchanged. -/
theorem C5_no_persistent_state_witness :
    (bufA.length % 4 = 0 ∧ 16 ≤ bufA.length ∧ 4 ≤ scanFF bufA (bufA.length - 13) ∧
      bufA.getD (scanFF bufA (bufA.length - 13)) 0 = 0xff ∧
      scanFF bufA (bufA.length - 13) < seedsB.length.getD 0 0) ∧
    ((descrambler2 bufA seedsB).2.2).table = seedsB.table :=
  ⟨⟨by decide, by decide, by decide, by decide, by decide⟩,
    C5_no_persistent_state.2 bufA seedsB (by decide) (by decide) (by decide) (by decide)
      (by decide)⟩

/-! Claim C10: descrambler1 and the fence modulus. -/

theorem d1Loop_isSome (k fence : Nat) (hf : 0 < fence) :
    ∀ (fuel i s : Nat) (buf : List Nat), (d1Loop k fence fuel i s buf).isSome := by
  intro fuel
  induction fuel with
  | zero => intro i s buf; rfl
  | succ n ih =>
    intro i s buf
    rw [d1Loop]
    rw [if_neg (by omega)]
    exact ih (i + 2) (lcg k s) _

theorem d1Loop_none (k : Nat) :
    ∀ (fuel i s : Nat) (buf : List Nat), d1Loop k 0 (fuel + 1) i s buf = none := by
  intro fuel i s buf
  rw [d1Loop]
  rw [if_pos rfl]

/-- Claim C10: descrambler1 evaluates x mod fence with no guard against a
zero fence and signals no error for it; with the division-by-zero branch of
the embedding marked as none, D1 is total exactly under the precondition
fence > 0, and with fence = 0 the division branch is reached as soon as the
buffer is nonempty. -/
theorem C10_fence_division (buf : List Nat) (seeds : seed_data) :
    (0 < seeds.fence → (descrambler1 buf seeds).isSome) ∧
    (seeds.fence = 0 → buf ≠ [] → descrambler1 buf seeds = none) := by
  have hshape : descrambler1 buf seeds =
      d1Loop SEED_CONSTANT seeds.fence ((buf.length + 1) / 2) 0 (seeds.main.getD 1 0)
        (buf.take (buf.length - min buf.length 0x800) ++
          (descramble_chunk (buf.drop (buf.length - min buf.length 0x800))
            (min buf.length 0x800) (SEED_CONSTANT, seeds.main.getD 0 0) 0x100).1) := rfl
  constructor
  · intro hf
    rw [hshape]
    exact d1Loop_isSome _ _ hf _ _ _ _
  · intro h0 hne
    have hlen : buf.length ≠ 0 := fun h => hne (List.eq_nil_of_length_eq_zero h)
    have hfuel : (buf.length + 1) / 2 = ((buf.length + 1) / 2 - 1) + 1 := by omega
    rw [hshape, h0, hfuel]
    exact d1Loop_none _ _ _ _ _

/-- Witness for C10: with fence 5 the call on a concrete buffer completes. -/
theorem C10_fence_division_witness :
    0 < seedsB.fence ∧ (descrambler1 [1, 2] seedsB).isSome :=
  ⟨by decide, (C10_fence_division [1, 2] seedsB).1 (by decide)⟩

end GustTools
